import Mathlib

/-!
Verification of the AnemiaNet-ML data-preparation scripts.

The repository contains three standalone utilities:
- convert_dta_to_csv.py : bulk conversion of Stata .dta files to CSV;
- extract_column_names.py : writes a numbered manifest of a CSV header;
- remove_null_columns.py : drops columns that are entirely null / empty
  from CSV files, in place, recursively over a directory tree.

We embed the scripts shallowly.  In-memory pandas cells are modelled by
`Val` (missing marker or a string value); a DataFrame is a `Table`
(column-major with a header of names); an on-disk CSV is a `CSVFile`
(header fields plus rows of raw text fields, cell quoting abstracted so
each field is atomic).  The pandas read and write behaviour that the
scripts rely on is modelled explicitly: `read_csv` parses empty fields
and the default NA markers to the missing value and de-duplicates
repeated header names; `to_csv` renders the missing value as the empty
field.  A small association-list filesystem `FS` carries file contents
and an externally-locked set of paths, modelling PermissionError on
overwrite.
-/

/-- An in-memory cell of a loaded table: the missing-value marker (pandas
NaN / None) or a string value (which may be the empty string). -/
inductive Val
  | missing
  | str (s : String)
deriving DecidableEq, Repr

/-- The pandas default NA markers: a raw field equal to one of these (or the
empty field) is parsed to the missing value by read_csv. -/
def naDefaults : List String :=
  ["#N/A", "#N/A N/A", "#NA", "-1.#IND", "-1.#QNAN", "-NaN", "-nan",
   "1.#IND", "1.#QNAN", "<NA>", "N/A", "NA", "NULL", "NaN", "None",
   "n/a", "nan", "null"]

/-- How read_csv interprets one raw text field. -/
def parseCell (s : String) : Val :=
  if s = "" ∨ s ∈ naDefaults then Val.missing else Val.str s

/-- How to_csv renders one cell (default na_rep is the empty field). -/
def writeCell : Val → String
  | Val.missing => ""
  | Val.str s => s

/-- An on-disk delimited text file: header fields and data rows of raw
text fields. -/
structure CSVFile where
  header : List String
  rows : List (List String)
deriving DecidableEq, Repr

/-- An in-memory DataFrame, column-major: column names in order, and for
each name the column of cells. -/
structure Table where
  names : List String
  cols : List (List Val)
deriving DecidableEq, Repr

/-- Concatenation of a list of strings (used to build a provably fresh
fallback name in the de-duplication of header names). -/
def concatAll : List String → String
  | [] => ""
  | s :: rest => s ++ concatAll rest

/-- Search for the first dot-numbered variant of `c` that is not among
`seen`; the fuel is always sufficient in use, and the fallback value is a
string strictly longer than every member of `seen`. -/
def freshGo (c : String) (seen : List String) : Nat → Nat → String
  | _, 0 => concatAll seen ++ "." ++ c ++ "x"
  | k, Nat.succ fuel =>
      if c ++ "." ++ Nat.repr k ∈ seen then freshGo c seen (k + 1) fuel
      else c ++ "." ++ Nat.repr k

/-- A name derived from `c` that does not occur in `seen`, following the
pandas convention of appending ".1", ".2", ... to repeated header names. -/
def freshName (c : String) (seen : List String) : String :=
  freshGo c seen 1 (seen.length + 1)

/-- Worker for header de-duplication: `seen` holds the names already
emitted. -/
def dedupGo (seen : List String) : List String → List String
  | [] => []
  | c :: cs =>
      let c2 := if c ∈ seen then freshName c seen else c
      c2 :: dedupGo (c2 :: seen) cs

/-- Pandas read_csv renames duplicate header names so that the loaded
DataFrame has pairwise distinct column labels ("a", "a" becomes
"a", "a.1"); first occurrences are kept verbatim. -/
def dedup_names (header : List String) : List String :=
  dedupGo [] header

/-- pandas.read_csv on a structured CSV file: fails (EmptyDataError) when
there are no columns; otherwise yields the table with de-duplicated
column names, each cell parsed with the NA rules, and short rows padded
with missing values. -/
def read_csv (f : CSVFile) : Option Table :=
  if f.header = [] then none
  else some
    { names := dedup_names f.header,
      cols := (List.range f.header.length).map fun j =>
        f.rows.map fun r => parseCell (r.getD j "") }

/-- Number of rows of a table (all columns of a loaded table have the
same length). -/
def tableRowCount (t : Table) : Nat := (t.cols.headD []).length

/-- DataFrame.to_csv with index=False: the header line followed by one
line per row, missing values rendered as empty fields. -/
def to_csv (t : Table) : CSVFile :=
  { header := t.names,
    rows := (List.range (tableRowCount t)).map fun i =>
      t.cols.map fun c => writeCell (c.getD i Val.missing) }

/-- The drop condition of remove_null_columns for one column:
`null_counts[col] == len(df) or empty_string_counts[col] == len(df)`,
i.e. every cell is the missing value, or every cell is the empty string. -/
def colQualifies (c : List Val) : Bool :=
  (c.all fun v => decide (v = Val.missing)) ||
  (c.all fun v => decide (v = Val.str ""))

/-- The cols_to_drop list of remove_null_columns: the (name, column)
pairs whose column qualifies, in original order. -/
def colsToDrop (t : Table) : List (String × List Val) :=
  (t.names.zip t.cols).filter fun q => colQualifies q.2

/-- The (name, column) pairs kept by remove_null_columns, in original
order. -/
def keptPairs (t : Table) : List (String × List Val) :=
  (t.names.zip t.cols).filter fun q => !colQualifies q.2

/-- df.drop(columns=cols_to_drop): the reduced table. -/
def pruneTable (t : Table) : Table :=
  { names := (keptPairs t).map Prod.fst,
    cols := (keptPairs t).map Prod.snd }

/-! Basic lemmas about the drop condition and the reduced table. -/

lemma colQualifies_iff (c : List Val) :
    colQualifies c = true ↔
      (∀ v ∈ c, v = Val.missing) ∨ (∀ v ∈ c, v = Val.str "") := by
  simp [colQualifies, List.all_eq_true]

lemma colQualifies_eq_false_of_mixed (c : List Val)
    (h1 : ∃ v ∈ c, v = Val.missing) (h2 : ∃ v ∈ c, v = Val.str "") :
    colQualifies c = false := by
  rcases h1 with ⟨v1, hv1, rfl⟩
  rcases h2 with ⟨v2, hv2, rfl⟩
  rw [← Bool.not_eq_true, colQualifies_iff]
  rintro (h | h)
  · exact absurd (h _ hv2) (by simp)
  · exact absurd (h _ hv1) (by simp)

lemma keptPairs_sublist (t : Table) :
    (keptPairs t).Sublist (t.names.zip t.cols) :=
  List.filter_sublist _

lemma pruneTable_names_sublist (t : Table)
    (hlen : t.names.length ≤ t.cols.length) :
    (pruneTable t).names.Sublist t.names := by
  have h1 : (pruneTable t).names.Sublist ((t.names.zip t.cols).map Prod.fst) :=
    (keptPairs_sublist t).map Prod.fst
  rwa [List.map_fst_zip _ _ hlen] at h1

lemma mem_keptPairs_iff (t : Table) (q : String × List Val) :
    q ∈ keptPairs t ↔ q ∈ t.names.zip t.cols ∧ colQualifies q.2 = false := by
  simp [keptPairs]

/-! ## Paths and the filesystem model -/

/-- A file path, split into the containing directory and the file name
(pathlib Path.parent and Path.name). -/
structure FPath where
  dir : String
  name : String
deriving DecidableEq, Repr

/-- pathlib splitting of a file name into stem and suffix: the suffix is
the part after the last dot, provided that dot is neither the first nor
the last character of the name; otherwise the suffix is empty and the
stem is the whole name. -/
def splitStemExt (name : String) : String × String :=
  let rev := name.data.reverse
  let extR := rev.takeWhile fun ch => decide (ch ≠ '.')
  match rev.dropWhile (fun ch => decide (ch ≠ '.')) with
  | [] => (name, "")
  | _ :: stemR =>
      if extR = [] ∨ stemR = [] then (name, "")
      else (⟨stemR.reverse⟩, ⟨extR.reverse⟩)

/-- pathlib Path.stem of a file name. -/
def stemOf (name : String) : String := (splitStemExt name).1

/-- pathlib Path.suffix of a file name, without the leading dot. -/
def extOf (name : String) : String := (splitStemExt name).2

/-- pathlib Path.with_suffix: the stem with the new suffix appended (the
argument carries its leading dot, as in the scripts). -/
def withSuffix (name suf : String) : String := stemOf name ++ suf

/-- Case-insensitivity helper: a string lower-cased character by
character. -/
def lowerStr (s : String) : String := ⟨s.data.map Char.toLower⟩

/-- Whether `suf` is a suffix of the file name `s` (glob patterns of the
form "*.ext" match exactly the names with ".ext" as a suffix). -/
def strEndsWith (s suf : String) : Bool := suf.data.isSuffixOf s.data

/-- Contents of one on-disk file: a delimited text file, a Stata binary
file (none when the file cannot be parsed by read_stata), or a plain
text file of lines. -/
inductive FileData
  | csv (f : CSVFile)
  | dta (t : Option Table)
  | txt (lines : List String)
deriving DecidableEq, Repr

/-- The filesystem: an association list from paths to contents (later
entries are shadowed by earlier ones, so writing prepends), plus the set
of paths an external process holds locked, on which overwriting raises
PermissionError. -/
structure FS where
  files : List (FPath × FileData)
  locked : List FPath
deriving DecidableEq, Repr

/-- First-match lookup in the file association list. -/
def lookupFiles : List (FPath × FileData) → FPath → Option FileData
  | [], _ => none
  | (q, d) :: rest, p => if q = p then some d else lookupFiles rest p

/-- Contents of the file at path `p`, if it exists. -/
def FS.lookup (fs : FS) (p : FPath) : Option FileData :=
  lookupFiles fs.files p

/-- Overwrite (or create) the file at path `p`. -/
def FS.write (fs : FS) (p : FPath) (d : FileData) : FS :=
  { files := (p, d) :: fs.files, locked := fs.locked }

/-- The distinct paths present in the filesystem. -/
def fsPaths (fs : FS) : List FPath := (fs.files.map Prod.fst).dedup

lemma FS.lookup_write_self (fs : FS) (p : FPath) (d : FileData) :
    (fs.write p d).lookup p = some d := by
  simp [FS.write, FS.lookup, lookupFiles]

lemma FS.lookup_write_ne (fs : FS) (p q : FPath) (d : FileData)
    (h : p ≠ q) : (fs.write p d).lookup q = fs.lookup q := by
  simp [FS.write, FS.lookup, lookupFiles, h]

lemma FS.locked_write (fs : FS) (p : FPath) (d : FileData) :
    (fs.write p d).locked = fs.locked := rfl

lemma FS.lookup_isSome_write (fs : FS) (p q : FPath) (d : FileData)
    (h : (fs.lookup q).isSome) : ((fs.write p d).lookup q).isSome := by
  by_cases hpq : p = q
  · subst hpq; simp [FS.lookup_write_self]
  · rwa [FS.lookup_write_ne fs p q d hpq]

lemma lookupFiles_isSome_of_mem :
    ∀ (l : List (FPath × FileData)) (p : FPath) (d : FileData),
      (p, d) ∈ l → (lookupFiles l p).isSome := by
  intro l
  induction l with
  | nil => intro p d h; cases h
  | cons hd tl ih =>
      intro p d h
      rw [lookupFiles]
      rcases List.mem_cons.mp h with h1 | h1
      · rw [← h1]; simp
      · split
        · simp
        · exact ih p d h1

lemma mem_fsPaths_lookup_isSome (fs : FS) (p : FPath)
    (h : p ∈ fsPaths fs) : (fs.lookup p).isSome := by
  rw [fsPaths, List.mem_dedup] at h
  obtain ⟨⟨q, d⟩, hq, hfst⟩ := List.mem_map.mp h
  simp only at hfst
  subst hfst
  exact lookupFiles_isSome_of_mem fs.files q d hq

/-! ## remove_null_columns.py -/

/-- The sibling path used when the in-place overwrite hits a locked
file: the script writes to parent / (stem + "_cleaned.csv"). -/
def cleanedPath (p : FPath) : FPath :=
  { dir := p.dir, name := stemOf p.name ++ "_cleaned.csv" }

/-- The backup path of the not-in-place branch:
csv_path.with_suffix(".csv.backup"). -/
def backupPath (p : FPath) : FPath :=
  { dir := p.dir, name := withSuffix p.name ".csv.backup" }

/-- Rename a file (used only by the not-in-place backup branch). -/
def FS.rename (fs : FS) (p q : FPath) : FS :=
  match fs.lookup p with
  | none => fs
  | some d =>
      { files := (q, d) :: fs.files.filter fun e => decide (e.1 ≠ p),
        locked := fs.locked }

/-- An exception escaping remove_null_columns: a pandas read failure
(for instance EmptyDataError on a file with no columns), or a write
failure that the PermissionError handler does not catch. -/
inductive PruneErr
  | readErr
  | writeErr
deriving DecidableEq, Repr

/-- The decision-and-write stage of remove_null_columns once the table
is loaded: if cols_to_drop is empty the file is left untouched and the
triple (n, n, 0) returned; otherwise the reduced table is written (in
place when possible, diverting to the _cleaned sibling on a locked
file, and raising if that write is also impossible; the not-in-place
branch first renames the original to the backup path). -/
def pruneAction (fs : FS) (p : FPath) (inplace : Bool) (t : Table) :
    FS × Except PruneErr (Option (Nat × Nat × Nat)) :=
  if (colsToDrop t).isEmpty then
    (fs, Except.ok (some (t.names.length, t.names.length, 0)))
  else
    if inplace then
      if p ∈ fs.locked then
        if cleanedPath p ∈ fs.locked then
          (fs, Except.error PruneErr.writeErr)
        else
          (fs.write (cleanedPath p) (FileData.csv (to_csv (pruneTable t))),
           Except.ok (some (t.names.length, (keptPairs t).length,
             (colsToDrop t).length)))
      else
        (fs.write p (FileData.csv (to_csv (pruneTable t))),
         Except.ok (some (t.names.length, (keptPairs t).length,
           (colsToDrop t).length)))
    else
      ((fs.rename p (backupPath p)).write p (FileData.csv (to_csv (pruneTable t))),
       Except.ok (some (t.names.length, (keptPairs t).length,
         (colsToDrop t).length)))

/-- remove_null_columns(csv_file, inplace): returns the updated
filesystem together with the outcome - `Except.ok none` models the
early `return None` when the path does not exist, `Except.ok (some
(original, remaining, removed))` the returned triple, and
`Except.error` an uncaught exception. -/
def remove_null_columns (fs : FS) (p : FPath) (inplace : Bool) :
    FS × Except PruneErr (Option (Nat × Nat × Nat)) :=
  match fs.lookup p with
  | none => (fs, Except.ok none)
  | some (FileData.csv file) =>
      match read_csv file with
      | none => (fs, Except.error PruneErr.readErr)
      | some t => pruneAction fs p inplace t
  | some _ => (fs, Except.error PruneErr.readErr)

lemma rnc_loaded {fs : FS} {p : FPath} {ip : Bool} {file : CSVFile}
    {t : Table} (h1 : fs.lookup p = some (FileData.csv file))
    (h2 : read_csv file = some t) :
    remove_null_columns fs p ip = pruneAction fs p ip t := by
  unfold remove_null_columns
  rw [h1]
  dsimp only
  rw [h2]

lemma rnc_read_fail {fs : FS} {p : FPath} {ip : Bool} {file : CSVFile}
    (h1 : fs.lookup p = some (FileData.csv file))
    (h2 : read_csv file = none) :
    remove_null_columns fs p ip = (fs, Except.error PruneErr.readErr) := by
  unfold remove_null_columns
  rw [h1]
  dsimp only
  rw [h2]

lemma pruneAction_noDrop {fs : FS} {p : FPath} {ip : Bool} {t : Table}
    (h : colsToDrop t = []) :
    pruneAction fs p ip t =
      (fs, Except.ok (some (t.names.length, t.names.length, 0))) := by
  unfold pruneAction
  rw [if_pos (by simp [h])]

lemma pruneAction_inplace_unlocked {fs : FS} {p : FPath} {t : Table}
    (h1 : colsToDrop t ≠ []) (h2 : p ∉ fs.locked) :
    pruneAction fs p true t =
      (fs.write p (FileData.csv (to_csv (pruneTable t))),
       Except.ok (some (t.names.length, (keptPairs t).length,
         (colsToDrop t).length))) := by
  unfold pruneAction
  rw [if_neg (by simp [h1]), if_pos rfl, if_neg h2]

lemma pruneAction_inplace_locked {fs : FS} {p : FPath} {t : Table}
    (h1 : colsToDrop t ≠ []) (h2 : p ∈ fs.locked)
    (h3 : cleanedPath p ∉ fs.locked) :
    pruneAction fs p true t =
      (fs.write (cleanedPath p) (FileData.csv (to_csv (pruneTable t))),
       Except.ok (some (t.names.length, (keptPairs t).length,
         (colsToDrop t).length))) := by
  unfold pruneAction
  rw [if_neg (by simp [h1]), if_pos rfl, if_pos h2, if_neg h3]

/-- The accumulator printed by process_folder. -/
structure Report where
  successful : Nat
  failed : Nat
  totalRemoved : Nat
  totalOriginal : Nat
deriving DecidableEq, Repr

/-- One loop iteration of process_folder: remove_null_columns inside the
try block; an exception increments failed; a truthy result (any returned
triple) increments successful and the column tallies; a None result
increments neither counter. -/
def processStep (acc : FS × Report) (p : FPath) : FS × Report :=
  match remove_null_columns acc.1 p true with
  | (fs2, Except.error _) =>
      (fs2, { acc.2 with failed := acc.2.failed + 1 })
  | (fs2, Except.ok none) => (fs2, acc.2)
  | (fs2, Except.ok (some (o, _, rm))) =>
      (fs2, { acc.2 with
                successful := acc.2.successful + 1,
                totalOriginal := acc.2.totalOriginal + o,
                totalRemoved := acc.2.totalRemoved + rm })

/-- process_folder over an already-discovered list of CSV paths. -/
def process_folder (fs : FS) (files : List FPath) : FS × Report :=
  files.foldl processStep (fs, ⟨0, 0, 0, 0⟩)

/-- The recursive glob "*.csv" over the filesystem: every on-disk path
whose name ends in ".csv", each once. -/
def globCsv (fs : FS) : List FPath :=
  (fsPaths fs).filter fun p => strEndsWith p.name ".csv"

/-! ## convert_dta_to_csv.py -/

/-- Discovery in convert_dta_to_csv:
list(input.rglob("*.dta")) + list(input.rglob("*.DTA")), a case-
sensitive suffix match done twice and concatenated. -/
def discoveredDta (fs : FS) : List FPath :=
  ((fsPaths fs).filter fun p => strEndsWith p.name ".dta") ++
  ((fsPaths fs).filter fun p => strEndsWith p.name ".DTA")

/-- The output path of the converter for one input file: with an output
folder, the mirrored relative path with the suffix replaced by ".csv";
without one, parent / stem first, and then with_suffix(".csv") applied
to that stem (so a dotted stem loses its last dot-segment). -/
def convOutPath (outFolder : Option String) (p : FPath) : FPath :=
  match outFolder with
  | some out => { dir := out ++ "/" ++ p.dir, name := withSuffix p.name ".csv" }
  | none => { dir := p.dir, name := withSuffix (stemOf p.name) ".csv" }

/-- One loop iteration of convert_dta_to_csv: read_stata then to_csv
inside the try block; any failure (missing file, unparseable input,
write error) increments failed, otherwise successful. -/
def convertStep (outFolder : Option String) (acc : FS × Nat × Nat)
    (p : FPath) : FS × Nat × Nat :=
  match acc.1.lookup p with
  | some (FileData.dta (some t)) =>
      let q := convOutPath outFolder p
      if q ∈ acc.1.locked then (acc.1, acc.2.1, acc.2.2 + 1)
      else (acc.1.write q (FileData.csv (to_csv t)), acc.2.1 + 1, acc.2.2)
  | _ => (acc.1, acc.2.1, acc.2.2 + 1)

/-- convert_dta_to_csv over the discovered files: returns the final
filesystem and the (successful, failed) counters of the printed
summary. -/
def convert_dta_to_csv (fs : FS) (outFolder : Option String) :
    FS × Nat × Nat :=
  (discoveredDta fs).foldl (convertStep outFolder) (fs, 0, 0)

/-! ## extract_column_names.py -/

/-- The numbered manifest lines: "{index}. {name}" with 1-based index,
in order. -/
def numberedLines (names : List String) : List String :=
  names.enum.map fun q => Nat.repr (q.1 + 1) ++ ". " ++ q.2

/-- The lines extract_column_names writes for a given CSV file:
read_csv(nrows=0) reads the header only (de-duplicating repeated
names), and the data rows are never touched. -/
def extractLines (f : CSVFile) : List String :=
  numberedLines (dedup_names f.header)

/-- extract_column_names(csv_file, output_file): missing input prints
and returns; otherwise the manifest is written to the given output path,
or to parent / (stem + "_columns.txt") by default. -/
def extract_column_names (fs : FS) (p : FPath) (out : Option FPath) : FS :=
  match fs.lookup p with
  | some (FileData.csv f) =>
      let op := out.getD { dir := p.dir, name := stemOf p.name ++ "_columns.txt" }
      fs.write op (FileData.txt (extractLines f))
  | _ => fs

/-! ## Label-indexed column evaluation (remove_null_columns reads the
per-column counts by column label: `null_counts[col]`) -/

/-- Label lookup in the (name, column) pairs of a table: defined exactly
when the label picks out one column; with duplicate labels the pandas
indexing returns a sub-series and the script would raise on the
ambiguous truth value, modelled by `none`. -/
def lookupUnique (pairs : List (String × List Val)) (n : String) :
    Option (List Val) :=
  match pairs.filter fun q => decide (q.1 = n) with
  | [q] => some q.2
  | _ => none

/-- The per-label evaluation loop `for col in df.columns`: each label is
looked up in the full table and its drop verdict computed; `none` when
any lookup is ambiguous or missing. -/
def evalCols (pairs : List (String × List Val)) :
    List String → Option (List Bool)
  | [] => some []
  | n :: ns =>
      match lookupUnique pairs n with
      | none => none
      | some c => (evalCols pairs ns).map fun bs => colQualifies c :: bs

/-- The whole label-indexed evaluation of a table. -/
def evalByLabel (t : Table) : Option (List Bool) :=
  evalCols (t.names.zip t.cols) t.names

/-! ## Properties of header de-duplication -/

lemma strData_append (a b : String) : (a ++ b).data = a.data ++ b.data := rfl

lemma mem_concatAll_length :
    ∀ (l : List String), ∀ s ∈ l, s.data.length ≤ (concatAll l).data.length := by
  intro l
  induction l with
  | nil => intro s h; cases h
  | cons hd tl ih =>
      intro s h
      rcases List.mem_cons.mp h with h1 | h1
      · subst h1
        simp [concatAll, strData_append]
      · calc s.data.length ≤ (concatAll tl).data.length := ih s h1
          _ ≤ (concatAll (hd :: tl)).data.length := by
              simp [concatAll, strData_append]

lemma freshGo_not_mem (c : String) (seen : List String) :
    ∀ (fuel k : Nat), freshGo c seen k fuel ∉ seen := by
  intro fuel
  induction fuel with
  | zero =>
      intro k h
      rw [freshGo] at h
      have h2 := mem_concatAll_length seen _ h
      simp only [strData_append, List.length_append, List.length_cons,
        List.length_nil] at h2
      omega
  | succ fuel ih =>
      intro k
      rw [freshGo]
      split
      · exact ih (k + 1)
      · assumption

lemma freshName_not_mem (c : String) (seen : List String) :
    freshName c seen ∉ seen :=
  freshGo_not_mem c seen (seen.length + 1) 1

lemma dedupGo_length : ∀ (l seen : List String),
    (dedupGo seen l).length = l.length := by
  intro l
  induction l with
  | nil => intro seen; rfl
  | cons c cs ih => intro seen; simp [dedupGo, ih]

lemma dedupGo_nodup_disjoint : ∀ (l seen : List String),
    (dedupGo seen l).Nodup ∧ ∀ x ∈ dedupGo seen l, x ∉ seen := by
  intro l
  induction l with
  | nil => intro seen; exact ⟨List.nodup_nil, by intro x h; cases h⟩
  | cons c cs ih =>
      intro seen
      rw [dedupGo]
      set c2 := if c ∈ seen then freshName c seen else c with hc2def
      have hc2 : c2 ∉ seen := by
        rw [hc2def]
        split
        · exact freshName_not_mem c seen
        · assumption
      obtain ⟨hnd, hdisj⟩ := ih (c2 :: seen)
      refine ⟨List.nodup_cons.mpr ⟨?_, hnd⟩, ?_⟩
      · intro hmem
        exact hdisj c2 hmem (List.mem_cons_self _ _)
      · intro x hx
        rcases List.mem_cons.mp hx with h1 | h1
        · subst h1; exact hc2
        · intro hxs
          exact hdisj x h1 (List.mem_cons_of_mem _ hxs)

lemma dedupGo_id : ∀ (l seen : List String), l.Nodup →
    (∀ x ∈ l, x ∉ seen) → dedupGo seen l = l := by
  intro l
  induction l with
  | nil => intro seen _ _; rfl
  | cons c cs ih =>
      intro seen hnd hdisj
      rw [dedupGo]
      have hc : c ∉ seen := hdisj c (List.mem_cons_self _ _)
      have hstep : (if c ∈ seen then freshName c seen else c) = c := if_neg hc
      rw [hstep]
      congr 1
      refine ih (c :: seen) (List.nodup_cons.mp hnd).2 ?_
      intro x hx
      intro hmem
      rcases List.mem_cons.mp hmem with h1 | h1
      · subst h1; exact (List.nodup_cons.mp hnd).1 hx
      · exact hdisj x (List.mem_cons_of_mem _ hx) h1

lemma dedup_names_nodup (h : List String) : (dedup_names h).Nodup :=
  (dedupGo_nodup_disjoint h []).1

lemma dedup_names_length (h : List String) :
    (dedup_names h).length = h.length :=
  dedupGo_length h []

lemma dedup_names_id (h : List String) (hnd : h.Nodup) : dedup_names h = h :=
  dedupGo_id h [] hnd (by intro x _ hx; cases hx)

/-! ## Cells surviving the read and write round trip -/

/-- A cell value that read_csv can actually produce: the missing value,
or a string that is neither empty nor one of the NA markers. -/
def CleanV : Val → Prop
  | Val.missing => True
  | Val.str s => s ≠ "" ∧ s ∉ naDefaults

lemma cleanV_parseCell (s : String) : CleanV (parseCell s) := by
  rw [parseCell]
  split
  · trivial
  · rename_i h
    push_neg at h
    exact h

lemma parseCell_writeCell (v : Val) (h : CleanV v) :
    parseCell (writeCell v) = v := by
  cases v with
  | missing => rfl
  | str s =>
      obtain ⟨h1, h2⟩ := h
      rw [writeCell, parseCell, if_neg]
      push_neg
      exact ⟨h1, h2⟩

/-! ## Claims C1 and C2: which columns the pruner removes -/

lemma zip_fst_snd {α β : Type} (l : List (α × β)) :
    (l.map Prod.fst).zip (l.map Prod.snd) = l := by
  rw [List.zip_map']
  simp

/-- C1: the Column Pruner removes exactly the columns for which one of
the two whole-column conditions holds (all cells missing, or all cells
the empty string), keeping the remaining columns in original relative
order; in particular, in a table with column A entirely missing, column
B entirely empty-string, column C mixing missing and non-missing cells
and column D fully populated, exactly A and B are removed and C, D
remain in order. -/
theorem c1_pruner_exact :
    (∀ t : Table, t.names.length ≤ t.cols.length →
        (pruneTable t).names.Sublist t.names) ∧
    (∀ t : Table, ∀ q : String × List Val,
        q ∈ (pruneTable t).names.zip (pruneTable t).cols ↔
          q ∈ t.names.zip t.cols ∧ colQualifies q.2 = false) ∧
    (∀ (a b c d : String) (A B C D : List Val),
        (∀ v ∈ A, v = Val.missing) →
        (∀ v ∈ B, v = Val.str "") →
        (∃ v ∈ C, v = Val.missing) →
        (∃ v ∈ C, v ≠ Val.missing) →
        D ≠ [] →
        (∀ v ∈ D, v ≠ Val.missing ∧ v ≠ Val.str "") →
        pruneTable ⟨[a, b, c, d], [A, B, C, D]⟩ = ⟨[c, d], [C, D]⟩) := by
  refine ⟨pruneTable_names_sublist, ?_, ?_⟩
  · intro t q
    have hz : (pruneTable t).names.zip (pruneTable t).cols = keptPairs t := by
      rw [pruneTable]
      exact zip_fst_snd (keptPairs t)
    rw [hz]
    exact mem_keptPairs_iff t q
  · intro a b c d A B C D hA hB hC1 hC2 hD hDfree
    have hAq : colQualifies A = true := (colQualifies_iff A).mpr (Or.inl hA)
    have hBq : colQualifies B = true := (colQualifies_iff B).mpr (Or.inr hB)
    have hCq : colQualifies C = false := by
      rw [← Bool.not_eq_true, colQualifies_iff]
      rintro (hall | hall)
      · obtain ⟨v, hv, hne⟩ := hC2
        exact hne (hall v hv)
      · obtain ⟨v, hv, hvm⟩ := hC1
        have h1 := hall v hv
        rw [hvm] at h1
        exact absurd h1 (by decide)
    have hDq : colQualifies D = false := by
      rw [← Bool.not_eq_true, colQualifies_iff]
      obtain ⟨v, hv⟩ := List.exists_mem_of_ne_nil D hD
      rintro (hall | hall)
      · exact (hDfree v hv).1 (hall v hv)
      · exact (hDfree v hv).2 (hall v hv)
    rw [pruneTable, keptPairs]
    simp [List.zip, List.filter, hAq, hBq, hCq, hDq]

/-- Witness for C1 at a concrete table. -/
theorem c1_witness :
    pruneTable ⟨["A", "B", "C", "D"],
        [[Val.missing], [Val.str ""], [Val.missing, Val.str "x"],
         [Val.str "1", Val.str "2"]]⟩ =
      ⟨["C", "D"], [[Val.missing, Val.str "x"], [Val.str "1", Val.str "2"]]⟩ :=
  c1_pruner_exact.2.2 "A" "B" "C" "D" _ _ _ _
    (by decide) (by decide) (by decide) (by decide) (by decide) (by decide)

/-- C2 counterexample: a column whose every cell is either the missing
value or the empty string, containing both, does not qualify for
removal - neither whole-column condition holds, so the pruner keeps it. -/
theorem c2_cex :
    (∀ v ∈ [Val.missing, Val.str ""], v = Val.missing ∨ v = Val.str "") ∧
    colQualifies [Val.missing, Val.str ""] = false ∧
    pruneTable ⟨["m"], [[Val.missing, Val.str ""]]⟩ =
      ⟨["m"], [[Val.missing, Val.str ""]]⟩ := by
  decide

/-- C2 amended: a column qualifies for removal exactly when all of its
cells are the missing value or all of its cells are the empty string; a
column containing a proper mixture of the two does not qualify. -/
theorem c2_union_of_column_predicates :
    (∀ c : List Val, colQualifies c = true ↔
        ((∀ v ∈ c, v = Val.missing) ∨ (∀ v ∈ c, v = Val.str ""))) ∧
    (∀ c : List Val, (∃ v ∈ c, v = Val.missing) →
        (∃ v ∈ c, v = Val.str "") → colQualifies c = false) :=
  ⟨colQualifies_iff, colQualifies_eq_false_of_mixed⟩

/-- Witness for C2 at concrete columns. -/
theorem c2_witness :
    colQualifies [Val.str "", Val.str ""] = true ∧
    colQualifies [Val.missing, Val.str "x", Val.str ""] = false :=
  ⟨(c2_union_of_column_predicates.1 _).mpr (Or.inr (by decide)),
   c2_union_of_column_predicates.2 _ (by decide) (by decide)⟩

/-! ## Claim C9: the header manifest -/

/-- C9 counterexample: with a duplicated header name the manifest lines
carry the de-duplicated labels of the loaded header, not the original
names, so the i-th line is not "{i}. {ci}" for the on-disk header. -/
theorem c9_cex :
    extractLines ⟨["a", "a"], []⟩ = ["1. a", "2. a.1"] ∧
    extractLines ⟨["a", "a"], []⟩ ≠ ["1. a", "2. a"] := by
  decide

/-- C9 amended: the manifest always has exactly as many lines as the
header has columns, is independent of the data rows (only the header is
read), and when the header names are pairwise distinct the i-th line is
exactly "{i}. {ci}" with 1-based index in original order; the manifest
is written to parent / (stem + "_columns.txt") when no output path is
given. -/
theorem c9_extractor_lines :
    (∀ f : CSVFile, (extractLines f).length = f.header.length) ∧
    (∀ (h : List String) (rows rows' : List (List String)),
        extractLines ⟨h, rows⟩ = extractLines ⟨h, rows'⟩) ∧
    (∀ f : CSVFile, f.header.Nodup →
        extractLines f =
          f.header.enum.map fun q => Nat.repr (q.1 + 1) ++ ". " ++ q.2) ∧
    (∀ (fs : FS) (p : FPath) (f : CSVFile),
        fs.lookup p = some (FileData.csv f) →
        (extract_column_names fs p none).lookup
            ⟨p.dir, stemOf p.name ++ "_columns.txt"⟩ =
          some (FileData.txt (extractLines f))) := by
  refine ⟨?_, ?_, ?_, ?_⟩
  · intro f
    simp [extractLines, numberedLines, dedup_names_length]
  · intro h rows rows'
    rfl
  · intro f hnd
    rw [extractLines, dedup_names_id f.header hnd]
    rfl
  · intro fs p f h
    unfold extract_column_names
    rw [h]
    exact FS.lookup_write_self fs _ _

/-- Witness for C9 at the header of the specification example. -/
theorem c9_witness :
    extractLines ⟨["age", "sex", "weight"], [["35", "1", "55"]]⟩ =
      ["1. age", "2. sex", "3. weight"] := by
  rw [c9_extractor_lines.2.2.1 ⟨["age", "sex", "weight"], [["35", "1", "55"]]⟩
    (by decide)]
  decide

/-! ## Claim C7: converter discovery -/

/-- C7 counterexample: a file whose extension matches the binary tabular
extension only case-insensitively (".Dta") is present on disk but is not
discovered, because the two globs match the suffixes ".dta" and ".DTA"
literally. -/
theorem c7_cex :
    lowerStr (extOf "x.Dta") = "dta" ∧
    (⟨"d", "x.Dta"⟩ : FPath) ∈
      fsPaths ⟨[(⟨"d", "x.Dta"⟩, FileData.dta (some ⟨[], []⟩))], []⟩ ∧
    discoveredDta ⟨[(⟨"d", "x.Dta"⟩, FileData.dta (some ⟨[], []⟩))], []⟩ = [] := by
  decide

/-- C7 amended: the discovered set consists of exactly the on-disk files
whose name ends in ".dta" or in ".DTA" (the two literal globs); other
casings of the extension are not discovered. -/
theorem c7_discovery :
    ∀ (fs : FS) (p : FPath), p ∈ discoveredDta fs ↔
      p ∈ fsPaths fs ∧
        (strEndsWith p.name ".dta" = true ∨ strEndsWith p.name ".DTA" = true) := by
  intro fs p
  simp only [discoveredDta, List.mem_append, List.mem_filter]
  constructor
  · rintro (⟨h1, h2⟩ | ⟨h1, h2⟩)
    · exact ⟨h1, Or.inl h2⟩
    · exact ⟨h1, Or.inr h2⟩
  · rintro ⟨h1, h2 | h2⟩
    · exact Or.inl ⟨h1, h2⟩
    · exact Or.inr ⟨h1, h2⟩

/-- Witness for C7: a lower-case ".dta" file is discovered. -/
theorem c7_witness :
    (⟨"d", "x.dta"⟩ : FPath) ∈
      discoveredDta ⟨[(⟨"d", "x.dta"⟩, FileData.dta (some ⟨[], []⟩))], []⟩ :=
  (c7_discovery _ _).mpr ⟨by decide, Or.inl (by decide)⟩

/-! ## Claim C8: converter output path without an output directory -/

lemma splitStemExt_no_dot (s : String) (h : '.' ∉ s.data) :
    splitStemExt s = (s, "") := by
  have hd : s.data.reverse.dropWhile (fun ch => decide (ch ≠ '.')) = [] := by
    rw [List.dropWhile_eq_nil_iff]
    intro x hx
    have hxs : x ∈ s.data := List.mem_reverse.mp hx
    simp only [decide_eq_true_eq]
    intro heq
    exact h (heq ▸ hxs)
  simp only [splitStemExt]
  rw [hd]

/-- C8 counterexample: for an input file whose base name contains a dot,
the converter (with no output directory) drops the final dot-segment of
the base name: "data.v2.dta" is written as "data.csv", not
"data.v2.csv". -/
theorem c8_cex :
    convOutPath none ⟨"d", "data.v2.dta"⟩ = ⟨"d", "data.csv"⟩ ∧
    convOutPath none ⟨"d", "data.v2.dta"⟩ ≠ ⟨"d", "data.v2.csv"⟩ := by
  decide

/-- C8 amended: with no output directory the converter writes alongside
the source; the output name is the source stem with with_suffix(".csv")
applied to it, so when the stem contains no dot the output is exactly
stem + ".csv", and in general a dotted stem loses the part after its
last dot. -/
theorem c8_output_alongside :
    (∀ p : FPath, '.' ∉ (stemOf p.name).data →
        convOutPath none p = ⟨p.dir, stemOf p.name ++ ".csv"⟩) ∧
    (∀ p : FPath, convOutPath none p = ⟨p.dir, stemOf (stemOf p.name) ++ ".csv"⟩) := by
  constructor
  · intro p h
    have h1 : convOutPath none p = ⟨p.dir, stemOf (stemOf p.name) ++ ".csv"⟩ := rfl
    rw [h1]
    have h2 : stemOf (stemOf p.name) = stemOf p.name := by
      rw [stemOf, splitStemExt_no_dot _ h]
    rw [h2]
  · intro p
    rfl

/-- Witness for C8 at a dot-free base name. -/
theorem c8_witness :
    convOutPath none ⟨"d", "data.dta"⟩ = ⟨"d", "data.csv"⟩ :=
  c8_output_alongside.1 ⟨"d", "data.dta"⟩ (by decide)

/-! ## Claim C10: the missing-file path of the pruner -/

/-- C10: invoked on a path that does not exist, the single-file pruner
returns None without touching the filesystem and without raising, and
the directory-level pass increments neither the successful nor the
failed counter for that file. -/
theorem c10_missing_file :
    ∀ (fs : FS) (p : FPath) (ip : Bool), fs.lookup p = none →
      remove_null_columns fs p ip = (fs, Except.ok none) ∧
      process_folder fs [p] = (fs, ⟨0, 0, 0, 0⟩) := by
  intro fs p ip h
  have h1 : remove_null_columns fs p true = (fs, Except.ok none) := by
    unfold remove_null_columns
    rw [h]
  constructor
  · unfold remove_null_columns
    rw [h]
  · have h2 : process_folder fs [p] = processStep (fs, ⟨0, 0, 0, 0⟩) p := rfl
    rw [h2]
    unfold processStep
    rw [show remove_null_columns (fs, (⟨0, 0, 0, 0⟩ : Report)).1 p true
          = (fs, Except.ok none) from h1]

/-- Witness for C10 at a concrete empty filesystem. -/
theorem c10_witness :
    remove_null_columns ⟨[], []⟩ ⟨"d", "a.csv"⟩ true =
        (⟨[], []⟩, Except.ok none) ∧
      process_folder ⟨[], []⟩ [⟨"d", "a.csv"⟩] = (⟨[], []⟩, ⟨0, 0, 0, 0⟩) :=
  c10_missing_file ⟨[], []⟩ ⟨"d", "a.csv"⟩ true rfl

/-! ## Claim C3: per-column evaluation under duplicate header names -/

lemma read_csv_some {f : CSVFile} {t : Table} (h : read_csv f = some t) :
    t.names = dedup_names f.header ∧ t.cols.length = f.header.length := by
  rw [read_csv] at h
  split at h
  · cases h
  · have h2 := Option.some.inj h
    rw [← h2]
    exact ⟨rfl, by simp⟩

lemma evalCols_spec :
    ∀ (names : List String) (cols : List (List Val))
      (pre : List (String × List Val)),
      names.Nodup → names.length = cols.length →
      (∀ q ∈ pre, q.1 ∉ names) →
      evalCols (pre ++ names.zip cols) names = some (cols.map colQualifies) := by
  intro names
  induction names with
  | nil =>
      intro cols pre _ hlen _
      cases cols with
      | nil => rfl
      | cons c cs => simp at hlen
  | cons n ns ih =>
      intro cols pre hnd hlen hpre
      cases cols with
      | nil => simp at hlen
      | cons c cs =>
          rw [List.zip_cons_cons, evalCols]
          have hnmem : n ∉ ns := (List.nodup_cons.mp hnd).1
          have hlook : lookupUnique (pre ++ (n, c) :: ns.zip cs) n = some c := by
            rw [lookupUnique, List.filter_append]
            have h1 : pre.filter (fun q => decide (q.1 = n)) = [] := by
              rw [List.filter_eq_nil_iff]
              intro q hq
              simp only [decide_eq_true_eq]
              intro he
              exact hpre q hq (he ▸ List.mem_cons_self n ns)
            have h3 : (ns.zip cs).filter (fun q => decide (q.1 = n)) = [] := by
              rw [List.filter_eq_nil_iff]
              rintro ⟨q1, q2⟩ hq
              simp only [decide_eq_true_eq]
              intro he
              exact hnmem (he ▸ (List.of_mem_zip hq).1)
            rw [h1, List.filter_cons_of_pos (by simp), h3]
            rfl
          rw [hlook]
          have happ : pre ++ (n, c) :: ns.zip cs = (pre ++ [(n, c)]) ++ ns.zip cs := by
            simp
          rw [happ, ih cs (pre ++ [(n, c)]) (List.nodup_cons.mp hnd).2
            (Nat.succ.inj (by simpa using hlen)) ?_]
          · rfl
          · intro q hq
            rcases List.mem_append.mp hq with h4 | h4
            · intro hm
              exact hpre q h4 (List.mem_cons_of_mem _ hm)
            · rcases List.mem_singleton.mp h4 with rfl
              exact hnmem

/-- C3: every table produced by the CSV read, including reads of files
with duplicate header names, has pairwise distinct column labels, so
the label-indexed per-column loop of the pruner succeeds on every
column and yields exactly each column's own verdict in order; the set
of qualifying (name, column) pairs is invariant under any reordering of
the columns. -/
theorem c3_label_evaluation :
    (∀ (f : CSVFile) (t : Table), read_csv f = some t →
        t.names.Nodup ∧ evalByLabel t = some (t.cols.map colQualifies)) ∧
    (∀ l l' : List (String × List Val), l.Perm l' →
        (l.filter fun q => colQualifies q.2).Perm
          (l'.filter fun q => colQualifies q.2)) := by
  constructor
  · intro f t h
    obtain ⟨hn, hc⟩ := read_csv_some h
    have hnd : t.names.Nodup := hn ▸ dedup_names_nodup f.header
    refine ⟨hnd, ?_⟩
    have hlen : t.names.length = t.cols.length := by
      rw [hn, dedup_names_length, hc]
    exact evalCols_spec t.names t.cols [] hnd hlen (by intro q hq; cases hq)
  · intro l l' hp
    exact hp.filter _

/-- Witness for C3 at a file with a duplicated header name. -/
theorem c3_witness :
    (⟨["a", "a.1"], [[Val.str "1"], [Val.missing]]⟩ : Table).names.Nodup ∧
    evalByLabel ⟨["a", "a.1"], [[Val.str "1"], [Val.missing]]⟩ =
      some ([[Val.str "1"], [Val.missing]].map colQualifies) :=
  c3_label_evaluation.1 ⟨["a", "a"], [["1", ""]]⟩ _ (by rfl)

/-! ## Claim C5: successful + failed = discovered -/

lemma convertStep_counts (out : Option String) (acc : FS × Nat × Nat)
    (p : FPath) :
    (convertStep out acc p).2.1 + (convertStep out acc p).2.2 =
      acc.2.1 + acc.2.2 + 1 := by
  simp only [convertStep]
  split
  · split
    all_goals simp
    all_goals omega
  · simp
    omega

lemma convert_fold_counts :
    ∀ (files : List FPath) (out : Option String) (acc : FS × Nat × Nat),
      ((files.foldl (convertStep out) acc).2.1 +
        (files.foldl (convertStep out) acc).2.2) =
        acc.2.1 + acc.2.2 + files.length := by
  intro files
  induction files with
  | nil => intro out acc; simp
  | cons p ps ih =>
      intro out acc
      rw [List.foldl_cons, ih out (convertStep out acc p), convertStep_counts]
      simp
      omega

lemma pruneAction_preserves (fs : FS) (p : FPath) (t : Table) (q : FPath)
    (h : (fs.lookup q).isSome) :
    (((pruneAction fs p true t).1).lookup q).isSome := by
  unfold pruneAction
  split
  · simpa using h
  · rw [if_pos rfl]
    split
    · split
      · simpa using h
      · simpa using FS.lookup_isSome_write _ _ _ _ h
    · simpa using FS.lookup_isSome_write _ _ _ _ h

lemma remove_null_columns_preserves (fs : FS) (p q : FPath)
    (h : (fs.lookup q).isSome) :
    (((remove_null_columns fs p true).1).lookup q).isSome := by
  cases hl : fs.lookup p with
  | none =>
      unfold remove_null_columns
      rw [hl]
      simpa using h
  | some d =>
      cases d with
      | csv f =>
          cases hr : read_csv f with
          | none =>
              rw [rnc_read_fail hl hr]
              simpa using h
          | some t =>
              rw [rnc_loaded hl hr]
              exact pruneAction_preserves fs p t q h
      | dta t =>
          unfold remove_null_columns
          rw [hl]
          simpa using h
      | txt l =>
          unfold remove_null_columns
          rw [hl]
          simpa using h

lemma remove_null_columns_ne_none (fs : FS) (p : FPath) (ip : Bool)
    (h : (fs.lookup p).isSome) :
    (remove_null_columns fs p ip).2 ≠ Except.ok none := by
  obtain ⟨d, hd⟩ := Option.isSome_iff_exists.mp h
  cases d with
  | csv f =>
      cases hr : read_csv f with
      | none =>
          rw [rnc_read_fail hd hr]
          simp
      | some t =>
          rw [rnc_loaded hd hr]
          unfold pruneAction
          split
          · simp
          · split
            · split
              · split
                · simp
                · simp
              · simp
            · simp
  | dta t =>
      unfold remove_null_columns
      rw [hd]
      simp
  | txt l =>
      unfold remove_null_columns
      rw [hd]
      simp

lemma processStep_fst (fs : FS) (r : Report) (p : FPath) :
    (processStep (fs, r) p).1 = (remove_null_columns fs p true).1 := by
  unfold processStep
  split
  all_goals (rename_i heq; rw [heq])

lemma processStep_counts (fs : FS) (r : Report) (p : FPath)
    (h : (fs.lookup p).isSome) :
    (processStep (fs, r) p).2.successful + (processStep (fs, r) p).2.failed =
      r.successful + r.failed + 1 := by
  unfold processStep
  split
  · simp
    omega
  · rename_i fs2 heq
    exact absurd (congrArg Prod.snd heq) (remove_null_columns_ne_none fs p true h)
  · simp
    omega

lemma processFolder_counts :
    ∀ (files : List FPath) (fs : FS) (r : Report),
      (∀ q ∈ files, (fs.lookup q).isSome) →
      ((files.foldl processStep (fs, r)).2.successful +
        (files.foldl processStep (fs, r)).2.failed) =
        r.successful + r.failed + files.length := by
  intro files
  induction files with
  | nil => intro fs r _; simp
  | cons p ps ih =>
      intro fs r h
      rw [List.foldl_cons]
      have hp : (fs.lookup p).isSome := h p (List.mem_cons_self _ _)
      have hacc : processStep (fs, r) p =
          ((processStep (fs, r) p).1, (processStep (fs, r) p).2) := rfl
      rw [hacc, ih _ _ ?_]
      · rw [processStep_counts fs r p hp]
        simp
        omega
      · intro q hq
        rw [processStep_fst]
        exact remove_null_columns_preserves fs p q (h q (List.mem_cons_of_mem _ hq))

/-- C5: for every batch run of the converter and of the directory-level
pruning pass, the successful counter plus the failed counter of the
printed summary equals the number of discovered matching files. -/
theorem c5_counter_invariant :
    (∀ (fs : FS) (out : Option String),
        (convert_dta_to_csv fs out).2.1 + (convert_dta_to_csv fs out).2.2 =
          (discoveredDta fs).length) ∧
    (∀ fs : FS,
        (process_folder fs (globCsv fs)).2.successful +
          (process_folder fs (globCsv fs)).2.failed = (globCsv fs).length) := by
  constructor
  · intro fs out
    rw [convert_dta_to_csv, convert_fold_counts]
    simp
  · intro fs
    have hpre : ∀ q ∈ globCsv fs, (fs.lookup q).isSome := by
      intro q hq
      exact mem_fsPaths_lookup_isSome fs q (List.mem_filter.mp hq).1
    rw [process_folder, processFolder_counts (globCsv fs) fs ⟨0, 0, 0, 0⟩ hpre]
    simp

/-! ## Claim C4: the locked-file fallback of the in-place write -/

lemma dropWhile_head_false {α : Type} (p : α → Bool) :
    ∀ (l : List α) (c : α) (rest : List α),
      l.dropWhile p = c :: rest → p c = false := by
  intro l
  induction l with
  | nil => intro c rest h; cases h
  | cons a l ih =>
      intro c rest h
      rw [List.dropWhile_cons] at h
      split at h
      · exact ih c rest h
      · injection h with h1 h2
        subst h1
        rename_i hpa
        simpa using hpa

lemma splitStemExt_spec (name : String) :
    ((splitStemExt name).1 = name ∧ (splitStemExt name).2 = "") ∨
    name.data = (splitStemExt name).1.data ++ '.' :: (splitStemExt name).2.data := by
  rcases hd : name.data.reverse.dropWhile (fun ch => decide (ch ≠ '.'))
    with _ | ⟨c, stemR⟩
  · left
    constructor
    all_goals simp only [splitStemExt]
    all_goals rw [hd]
  · have hc : c = '.' := by
      have h1 := dropWhile_head_false _ _ _ _ hd
      simpa using h1
    subst hc
    by_cases hcase :
        name.data.reverse.takeWhile (fun ch => decide (ch ≠ '.')) = [] ∨
          stemR = []
    · left
      constructor
      all_goals simp only [splitStemExt]
      all_goals rw [hd]
      all_goals dsimp only
      all_goals rw [if_pos hcase]
    · right
      simp only [splitStemExt]
      rw [hd]
      dsimp only
      rw [if_neg hcase]
      have htd := List.takeWhile_append_dropWhile
        (fun ch => decide (ch ≠ '.')) name.data.reverse
      rw [hd] at htd
      calc name.data = name.data.reverse.reverse := (List.reverse_reverse _).symm
        _ = ((name.data.reverse.takeWhile (fun ch => decide (ch ≠ '.'))) ++
              '.' :: stemR).reverse := by rw [htd]
        _ = stemR.reverse ++ '.' ::
              (name.data.reverse.takeWhile (fun ch => decide (ch ≠ '.'))).reverse := by
            simp

lemma cleanedPath_name_ne (p : FPath) : (cleanedPath p).name ≠ p.name := by
  intro h
  have h0 : stemOf p.name ++ "_cleaned.csv" = p.name := h
  rcases splitStemExt_spec p.name with ⟨h1, _⟩ | h2
  · unfold stemOf at h0
    rw [h1] at h0
    have hlen := congrArg String.length h0
    rw [String.length_append] at hlen
    have h12 : ("_cleaned.csv" : String).length = 12 := by decide
    omega
  · have hdata := congrArg String.data h0
    rw [strData_append] at hdata
    unfold stemOf at hdata
    rw [h2] at hdata
    have h3 := List.append_cancel_left hdata
    have hlit : ("_cleaned.csv" : String).data = '_' :: ("cleaned.csv" : String).data := rfl
    rw [hlit] at h3
    injection h3 with hhead _
    exact absurd hhead (by decide)

lemma cleanedPath_ne (p : FPath) : cleanedPath p ≠ p := by
  intro h
  exact cleanedPath_name_ne p (congrArg FPath.name h)

/-- C4 counterexample: pruning a locked file named "data.txt" does not
create the same-extension sibling "data_cleaned.txt" the claim
describes; the fallback file is "data_cleaned.csv" (the script hardwires
the ".csv" extension in the fallback name). -/
theorem c4_cex :
    ((remove_null_columns
        ⟨[(⟨"d", "data.txt"⟩, FileData.csv ⟨["a", "b"], [["", "x"]]⟩)],
          [⟨"d", "data.txt"⟩]⟩ ⟨"d", "data.txt"⟩ true).1.lookup
        ⟨"d", "data_cleaned.txt"⟩ = none) ∧
    ((remove_null_columns
        ⟨[(⟨"d", "data.txt"⟩, FileData.csv ⟨["a", "b"], [["", "x"]]⟩)],
          [⟨"d", "data.txt"⟩]⟩ ⟨"d", "data.txt"⟩ true).1.lookup
        ⟨"d", "data_cleaned.csv"⟩ = some (FileData.csv ⟨["b"], [["x"]]⟩)) ∧
    ((remove_null_columns
        ⟨[(⟨"d", "data.txt"⟩, FileData.csv ⟨["a", "b"], [["", "x"]]⟩)],
          [⟨"d", "data.txt"⟩]⟩ ⟨"d", "data.txt"⟩ true).1.lookup
        ⟨"d", "data.txt"⟩ = some (FileData.csv ⟨["a", "b"], [["", "x"]]⟩)) := by
  decide

/-- C4 amended: when the in-place write of a non-empty removal set hits
a locked target, the reduced table is written to the sibling path
parent / (stem + "_cleaned.csv") - same extension only when the input
already has extension csv - the original file is left unmodified, and
the usual triple is returned. -/
theorem c4_locked_fallback :
    ∀ (fs : FS) (p : FPath) (file : CSVFile) (t : Table),
      fs.lookup p = some (FileData.csv file) →
      read_csv file = some t →
      colsToDrop t ≠ [] →
      p ∈ fs.locked →
      cleanedPath p ∉ fs.locked →
      remove_null_columns fs p true =
        (fs.write (cleanedPath p) (FileData.csv (to_csv (pruneTable t))),
         Except.ok (some (t.names.length, (keptPairs t).length,
           (colsToDrop t).length))) ∧
      (remove_null_columns fs p true).1.lookup p = some (FileData.csv file) ∧
      (cleanedPath p).dir = p.dir ∧
      (cleanedPath p).name = stemOf p.name ++ "_cleaned.csv" := by
  intro fs p file t h1 h2 h3 h4 h5
  have hmain : remove_null_columns fs p true =
      (fs.write (cleanedPath p) (FileData.csv (to_csv (pruneTable t))),
       Except.ok (some (t.names.length, (keptPairs t).length,
         (colsToDrop t).length))) := by
    rw [rnc_loaded h1 h2, pruneAction_inplace_locked h3 h4 h5]
  refine ⟨hmain, ?_, rfl, rfl⟩
  rw [hmain]
  rw [FS.lookup_write_ne fs _ p _ (cleanedPath_ne p)]
  exact h1

/-- Witness for C4 at a concrete locked CSV file. -/
theorem c4_witness :
    remove_null_columns
        ⟨[(⟨"d", "t.csv"⟩, FileData.csv ⟨["a", "b"], [["", "x"]]⟩)],
          [⟨"d", "t.csv"⟩]⟩ ⟨"d", "t.csv"⟩ true =
      (FS.write
        ⟨[(⟨"d", "t.csv"⟩, FileData.csv ⟨["a", "b"], [["", "x"]]⟩)],
          [⟨"d", "t.csv"⟩]⟩ (cleanedPath ⟨"d", "t.csv"⟩)
        (FileData.csv (to_csv (pruneTable ⟨["a", "b"],
          [[Val.missing], [Val.str "x"]]⟩))),
       Except.ok (some (2, 1, 1))) :=
  (c4_locked_fallback
    ⟨[(⟨"d", "t.csv"⟩, FileData.csv ⟨["a", "b"], [["", "x"]]⟩)],
      [⟨"d", "t.csv"⟩]⟩ ⟨"d", "t.csv"⟩ ⟨["a", "b"], [["", "x"]]⟩
    ⟨["a", "b"], [[Val.missing], [Val.str "x"]]⟩ (by rfl) (by rfl) (by decide)
    (by decide) (by decide)).1

/-! ## Claim C6: idempotence of the pruner - round-trip machinery -/

lemma read_csv_props {f : CSVFile} {t : Table} (h : read_csv f = some t) :
    t.names.Nodup ∧ t.names.length = t.cols.length ∧ t.names ≠ [] ∧
    (∀ c ∈ t.cols, c.length = f.rows.length) ∧
    (∀ c ∈ t.cols, ∀ v ∈ c, CleanV v) := by
  rw [read_csv] at h
  split at h
  · cases h
  · rename_i hne
    have h2 := Option.some.inj h
    rw [← h2]
    refine ⟨dedup_names_nodup _, ?_, ?_, ?_, ?_⟩
    · simp [dedup_names_length]
    · intro hcon
      have := congrArg List.length hcon
      rw [dedup_names_length] at this
      exact hne (List.length_eq_zero.mp this)
    · intro c hc
      obtain ⟨j, _, hj⟩ := List.mem_map.mp hc
      rw [← hj]
      simp
    · intro c hc v hv
      obtain ⟨j, _, hj⟩ := List.mem_map.mp hc
      rw [← hj] at hv
      obtain ⟨r, _, hr⟩ := List.mem_map.mp hv
      rw [← hr]
      exact cleanV_parseCell _

lemma map_getD_range {α : Type} (l : List α) (d : α) :
    (List.range l.length).map (fun i => l.getD i d) = l := by
  apply List.ext_getElem?
  intro n
  rw [List.getElem?_map]
  by_cases hn : n < l.length
  · rw [List.getElem?_range hn]
    simp [List.getD_eq_getElem?_getD, List.getElem?_eq_getElem hn]
  · have h1 : (List.range l.length)[n]? = none := by
      rw [List.getElem?_eq_none]
      simpa using Nat.le_of_not_lt hn
    have h2 : l[n]? = none := by
      rw [List.getElem?_eq_none]
      exact Nat.le_of_not_lt hn
    rw [h1, h2]
    rfl

lemma getD_map_lt {α β : Type} (h : α → β) (l : List α) (j : Nat)
    (hj : j < l.length) (d : β) :
    (l.map h).getD j d = h (l.get ⟨j, hj⟩) := by
  rw [List.getD_eq_getElem?_getD, List.getElem?_map,
    List.getElem?_eq_getElem hj]
  rfl

lemma getD_mem_of_lt {α : Type} (l : List α) (i : Nat) (hi : i < l.length)
    (d : α) : l.getD i d ∈ l := by
  rw [List.getD_eq_getElem?_getD, List.getElem?_eq_getElem hi]
  exact List.get_mem l _ _

lemma uniform_rowcount (t : Table) (n : Nat) (hne : t.cols ≠ [])
    (h : ∀ c ∈ t.cols, c.length = n) : tableRowCount t = n := by
  rw [tableRowCount]
  cases hc : t.cols with
  | nil => exact absurd hc hne
  | cons c cs =>
      have := h c (by rw [hc]; exact List.mem_cons_self _ _)
      simpa using this

/-- Writing a uniform table of clean cells and re-reading it restores
the table exactly: the header names are already unique so the
de-duplication leaves them unchanged, and each clean cell round-trips
through the empty-field NA convention. -/
lemma read_to_csv (t : Table)
    (hlen : t.names.length = t.cols.length)
    (hnd : t.names.Nodup)
    (hne : t.names ≠ [])
    (hrows : ∀ c ∈ t.cols, c.length = tableRowCount t)
    (hclean : ∀ c ∈ t.cols, ∀ v ∈ c, CleanV v) :
    read_csv (to_csv t) = some t := by
  obtain ⟨names, cols⟩ := t
  simp only at hlen hnd hne hrows hclean
  rw [read_csv, show (to_csv ⟨names, cols⟩).header = names from rfl, if_neg hne]
  have hdn : dedup_names names = names := dedup_names_id names hnd
  have hcols : (List.range names.length).map (fun j =>
      (to_csv ⟨names, cols⟩).rows.map fun r => parseCell (r.getD j "")) = cols := by
    apply List.ext_getElem?
    intro j
    rw [List.getElem?_map]
    by_cases hj : j < names.length
    · have hjc : j < cols.length := hlen ▸ hj
      rw [List.getElem?_range hj, List.getElem?_eq_getElem hjc]
      simp only [Option.map_some']
      congr 1
      set n := tableRowCount ⟨names, cols⟩ with hn
      have hrowsdef : (to_csv ⟨names, cols⟩).rows =
          (List.range n).map fun i =>
            cols.map fun c => writeCell (c.getD i Val.missing) := rfl
      rw [hrowsdef, List.map_map]
      have hmem : cols.get ⟨j, hjc⟩ ∈ cols := List.get_mem cols _ _
      have hclen : (cols.get ⟨j, hjc⟩).length = n := hrows _ hmem
      have hstep : ∀ i ∈ List.range n,
          ((fun r => parseCell (r.getD j "")) ∘
            fun i => cols.map fun c => writeCell (c.getD i Val.missing)) i =
            (cols.get ⟨j, hjc⟩).getD i Val.missing := by
        intro i hi
        have hin : i < n := List.mem_range.mp hi
        have hin2 : i < (cols.get ⟨j, hjc⟩).length := by rw [hclen]; exact hin
        simp only [Function.comp]
        rw [getD_map_lt (fun c => writeCell (c.getD i Val.missing)) cols j hjc ""]
        exact parseCell_writeCell _
          (hclean _ hmem _ (getD_mem_of_lt _ i hin2 _))
      rw [List.map_congr_left hstep]
      have hfin := map_getD_range (cols.get ⟨j, hjc⟩) Val.missing
      rw [hclen] at hfin
      rw [hfin]
      rfl
    · have h1 : (List.range names.length)[j]? = none := by
        rw [List.getElem?_eq_none]
        rw [List.length_range]
        omega
      have h2 : cols[j]? = none := by
        rw [List.getElem?_eq_none]
        omega
      rw [h1, h2]
      rfl
  rw [hdn, hcols]

lemma mem_pruneTable_cols {t : Table} {c : List Val}
    (h : c ∈ (pruneTable t).cols) : c ∈ t.cols := by
  simp only [pruneTable] at h
  obtain ⟨q, hq, hqc⟩ := List.mem_map.mp h
  have hz := ((mem_keptPairs_iff t q).mp hq).1
  rcases q with ⟨nm, cc⟩
  rw [← hqc]
  exact (List.of_mem_zip hz).2

lemma colsToDrop_pruneTable (t : Table) : colsToDrop (pruneTable t) = [] := by
  simp only [colsToDrop, pruneTable]
  rw [zip_fst_snd, keptPairs, List.filter_filter]
  simp

/-- C6 counterexample: on a file whose single column is entirely empty,
the first run drops every column and writes a file with no columns; the
second run then fails to read it (pandas raises EmptyDataError on a
file with no columns to parse) instead of removing zero columns and
returning the same column set. -/
theorem c6_cex :
    (remove_null_columns
        ⟨[(⟨"d", "t.csv"⟩, FileData.csv ⟨["a"], [[""]]⟩)], []⟩
        ⟨"d", "t.csv"⟩ true).2 = Except.ok (some (1, 0, 1)) ∧
    (remove_null_columns
        (remove_null_columns
          ⟨[(⟨"d", "t.csv"⟩, FileData.csv ⟨["a"], [[""]]⟩)], []⟩
          ⟨"d", "t.csv"⟩ true).1
        ⟨"d", "t.csv"⟩ true).2 = Except.error PruneErr.readErr :=
  ⟨rfl, rfl⟩

/-- C6 amended: the pruner is idempotent on every file for which the
first (unlocked, in-place) run leaves at least one column: the second
run on the same path removes zero additional columns, returns the
surviving column count unchanged, and leaves the filesystem untouched.
When the first run removes every column, the rewritten file has no
columns and the second run raises on read instead. -/
theorem c6_idempotence :
    ∀ (fs : FS) (p : FPath) (o rem rm : Nat),
      p ∉ fs.locked →
      (remove_null_columns fs p true).2 = Except.ok (some (o, rem, rm)) →
      0 < rem →
      remove_null_columns (remove_null_columns fs p true).1 p true =
        ((remove_null_columns fs p true).1, Except.ok (some (rem, rem, 0))) := by
  intro fs p o rem rm hlock hres hrem
  cases hl : fs.lookup p with
  | none =>
      have h0 : remove_null_columns fs p true = (fs, Except.ok none) := by
        unfold remove_null_columns
        rw [hl]
      rw [h0] at hres
      simp at hres
  | some d =>
      cases d with
      | dta td =>
          have h0 : remove_null_columns fs p true =
              (fs, Except.error PruneErr.readErr) := by
            unfold remove_null_columns
            rw [hl]
          rw [h0] at hres
          simp at hres
      | txt lns =>
          have h0 : remove_null_columns fs p true =
              (fs, Except.error PruneErr.readErr) := by
            unfold remove_null_columns
            rw [hl]
          rw [h0] at hres
          simp at hres
      | csv file =>
          cases hr : read_csv file with
          | none =>
              rw [rnc_read_fail hl hr] at hres
              simp at hres
          | some t =>
              obtain ⟨hnd, hlen, hneq, hrows, hclean⟩ := read_csv_props hr
              by_cases hdrop : colsToDrop t = []
              · have h0 : remove_null_columns fs p true =
                    (fs, Except.ok (some (t.names.length, t.names.length, 0))) := by
                  rw [rnc_loaded hl hr, pruneAction_noDrop hdrop]
                rw [h0] at hres ⊢
                simp only [Prod.snd] at hres
                simp at hres
                obtain ⟨e1, e2, e3⟩ := hres
                dsimp only
                rw [rnc_loaded hl hr, pruneAction_noDrop hdrop, e2]
              · have h0 : remove_null_columns fs p true =
                    (fs.write p (FileData.csv (to_csv (pruneTable t))),
                     Except.ok (some (t.names.length, (keptPairs t).length,
                       (colsToDrop t).length))) := by
                  rw [rnc_loaded hl hr, pruneAction_inplace_unlocked hdrop hlock]
                rw [h0] at hres ⊢
                simp at hres
                obtain ⟨e1, e2, e3⟩ := hres
                dsimp only
                set t2 := pruneTable t with ht2
                have hlen2 : t2.names.length = t2.cols.length := by
                  rw [ht2]
                  simp [pruneTable]
                have hnd2 : t2.names.Nodup :=
                  (pruneTable_names_sublist t (le_of_eq hlen)).nodup hnd
                have hlen2n : t2.names.length = (keptPairs t).length := by
                  rw [ht2]
                  simp [pruneTable]
                have hne2 : t2.names ≠ [] := by
                  intro hx
                  have hx2 := congrArg List.length hx
                  rw [hlen2n, e2] at hx2
                  simp at hx2
                  omega
                have hcolsne : t2.cols ≠ [] := by
                  intro hx
                  have hx2 := congrArg List.length hx
                  rw [← hlen2] at hx2
                  exact hne2 (List.length_eq_zero.mp (by simpa using hx2))
                have hrows2 : ∀ c ∈ t2.cols, c.length = file.rows.length :=
                  fun c hc => hrows c (mem_pruneTable_cols (ht2 ▸ hc))
                have hrc : tableRowCount t2 = file.rows.length :=
                  uniform_rowcount t2 _ hcolsne hrows2
                have hrows3 : ∀ c ∈ t2.cols, c.length = tableRowCount t2 := by
                  intro c hc
                  rw [hrc]
                  exact hrows2 c hc
                have hclean2 : ∀ c ∈ t2.cols, ∀ v ∈ c, CleanV v :=
                  fun c hc => hclean c (mem_pruneTable_cols (ht2 ▸ hc))
                have hread2 : read_csv (to_csv t2) = some t2 :=
                  read_to_csv t2 hlen2 hnd2 hne2 hrows3 hclean2
                have hlook2 : (fs.write p (FileData.csv (to_csv t2))).lookup p =
                    some (FileData.csv (to_csv t2)) := FS.lookup_write_self _ _ _
                have hdrop2 : colsToDrop t2 = [] := by
                  rw [ht2]
                  exact colsToDrop_pruneTable t
                rw [rnc_loaded hlook2 hread2, pruneAction_noDrop hdrop2]
                rw [show t2.names.length = rem from by rw [hlen2n]; exact e2]

/-- Witness for C6 at a file with one surviving and one dropped column. -/
theorem c6_witness :
    remove_null_columns
        (remove_null_columns
          ⟨[(⟨"dd", "u.csv"⟩, FileData.csv ⟨["k", "d2"], [["x", ""]]⟩)], []⟩
          ⟨"dd", "u.csv"⟩ true).1 ⟨"dd", "u.csv"⟩ true =
      ((remove_null_columns
          ⟨[(⟨"dd", "u.csv"⟩, FileData.csv ⟨["k", "d2"], [["x", ""]]⟩)], []⟩
          ⟨"dd", "u.csv"⟩ true).1, Except.ok (some (1, 1, 0))) :=
  c6_idempotence
    ⟨[(⟨"dd", "u.csv"⟩, FileData.csv ⟨["k", "d2"], [["x", ""]]⟩)], []⟩
    ⟨"dd", "u.csv"⟩ 2 1 1 (by decide) (by rfl) (by decide)
